import Mathlib

/-!
Verification of the core logic of the `pptx-generator3` repository
(`src/app.py`): placeholder analysis of a one-slide template, the
per-folder slide-population algorithm, and the batch driver.

Python strings are modelled as `List Char` (`Str`); slide geometry uses
exact rationals (`ℚ`); shapes and slides are explicit records and lists;
fallible extraction returns `Except`.  The out-of-scope collaborators
(document serialization, EXIF reading) appear as oracles in a context
record, as the spec directs.
-/

/-- Python `str`, modelled as its sequence of characters. -/
abbrev Str := List Char

/-- Lexicographic code-point comparison, as Python string `<=`. -/
def strLe : Str → Str → Bool
  | [], _ => true
  | _ :: _, [] => false
  | c :: cs, d :: ds => if c = d then strLe cs ds else decide (c < d)

/-- Python `str.lower()`. -/
def lowerStr (s : Str) : Str := s.map Char.toLower

/-- Python `str.endswith(suffix)`. -/
def strEndsWith (s suffix : Str) : Bool := suffix.isSuffixOf s

/-- Insert into a `strLe`-sorted list, keeping it sorted. -/
def insertSorted (a : Str) : List Str → List Str
  | [] => [a]
  | b :: rest => if strLe a b then a :: b :: rest else b :: insertSorted a rest

/-- Python `sorted` on strings (insertion sort; `strLe` is a total
order on code points, so this computes the same list as any sort). -/
def sortStrs : List Str → List Str
  | [] => []
  | a :: rest => insertSorted a (sortStrs rest)

/-- The image-file extensions accepted throughout `app.py`
(`.png .jpg .jpeg .gif .bmp .tiff .webp`). -/
def image_exts : List Str :=
  [".png".toList, ".jpg".toList, ".jpeg".toList, ".gif".toList,
   ".bmp".toList, ".tiff".toList, ".webp".toList]

/-- `f.lower().endswith(('.png', '.jpg', ...))` from `app.py`. -/
def isImageFile (f : Str) : Bool :=
  image_exts.any (fun e => strEndsWith (lowerStr f) e)

/-! ## Shapes and descriptors -/

/-- The placeholder types `app.py` distinguishes
(`PP_PLACEHOLDER.PICTURE`, `PP_PLACEHOLDER.TITLE`, anything else). -/
inductive PHType
  | picture
  | title
  | other
deriving DecidableEq, Repr

/-- `shape.shape_type`: `MSO_SHAPE_TYPE.PICTURE` or anything else. -/
inductive ShapeKind
  | picture
  | other
deriving DecidableEq, Repr

/-- A shape on a slide, with the attributes `app.py` reads or writes.
`picture` records the image content inserted by pictures operations. -/
structure Shape where
  isPlaceholder : Bool
  phType : PHType
  shapeKind : ShapeKind
  left : ℚ
  top : ℚ
  width : ℚ
  height : ℚ
  rotation : ℚ
  hasTextFrame : Bool
  text : Str
  picture : Option Str
deriving DecidableEq, Repr

/-- A default shape for out-of-range list reads; it is neither a
placeholder nor a picture, so it satisfies no shape predicate. -/
def defaultShape : Shape :=
  { isPlaceholder := false, phType := .other, shapeKind := .other,
    left := 0, top := 0, width := 0, height := 0, rotation := 0,
    hasTextFrame := false, text := [], picture := none }

/-- The `'type'` field of a descriptor dict: the placeholder type for
placeholders, the string `'regular_image'` for loose pictures. -/
inductive DescType
  | ph (t : PHType)
  | regular_image
deriving DecidableEq, Repr

/-- One entry of the analyzer output (`placeholder_info` / `image_info`
dict in `analyze_slide_placeholders`). -/
structure Desc where
  id : ℕ
  dtype : DescType
  left : ℚ
  top : ℚ
  width : ℚ
  height : ℚ
  left_percent : ℚ
  top_percent : ℚ
  width_percent : ℚ
  height_percent : ℚ
  rotation : ℚ
  current_content : Str
deriving DecidableEq, Repr

/-- Which of the three analyzer buckets an entry is appended to. -/
inductive Bucket
  | image
  | text
  | title
deriving DecidableEq, Repr

/-! ## Placeholder analyzer (`analyze_slide_placeholders`) -/

/-- `clamp_percent` from `analyze_slide_placeholders`. -/
def clamp_percent (v : ℚ) : ℚ := max 0 (min v 100)

/-- The descriptor fields common to every branch of the analyzer. -/
def mkDesc (pid : ℕ) (t : DescType) (s : Shape) (w h : ℚ) (content : Str) : Desc :=
  { id := pid, dtype := t,
    left := s.left, top := s.top, width := s.width, height := s.height,
    left_percent := clamp_percent (s.left / w * 100),
    top_percent := clamp_percent (s.top / h * 100),
    width_percent := clamp_percent (s.width / w * 100),
    height_percent := clamp_percent (s.height / h * 100),
    rotation := s.rotation, current_content := content }

/-- Python `str(n)` for the `f"نص {placeholder_id + 1}"` label. -/
def natStr (n : ℕ) : Str := (toString n).toList

/-- The descriptor (if any) created for one placeholder shape, and its
bucket, at counter value `pid`; mirrors the branch structure of the
first loop of `analyze_slide_placeholders`. -/
def placeholderEntry (w h : ℚ) (pid : ℕ) (s : Shape) : Option (Bucket × Desc) :=
  if s.phType = .picture then
    some (.image, mkDesc pid (.ph .picture) s w h "صورة".toList)
  else if s.phType = .title then
    some (.title, mkDesc pid (.ph .title) s w h
      (if s.hasTextFrame ∧ s.text ≠ [] then s.text else "العنوان".toList))
  else if s.hasTextFrame then
    some (.text, mkDesc pid (.ph s.phType) s w h
      (if s.text ≠ [] then s.text else "نص ".toList ++ natStr (pid + 1)))
  else
    none

/-- First loop of `analyze_slide_placeholders`: walk the shapes, create
a descriptor per placeholder, incrementing `placeholder_id` for every
placeholder shape (even those that yield no descriptor).  Returns the
created entries in creation order, and the final counter. -/
def analyzeLoop1 (w h : ℚ) : List Shape → ℕ → List (Bucket × Desc) × ℕ
  | [], pid => ([], pid)
  | s :: rest, pid =>
    if s.isPlaceholder then
      let e := placeholderEntry w h pid s
      let r := analyzeLoop1 w h rest (pid + 1)
      (e.toList ++ r.1, r.2)
    else
      analyzeLoop1 w h rest pid

/-- Second loop of `analyze_slide_placeholders`: non-placeholder
pictures ("loose" images), appended to the image bucket. -/
def analyzeLoop2 (w h : ℚ) : List Shape → ℕ → List (Bucket × Desc) × ℕ
  | [], pid => ([], pid)
  | s :: rest, pid =>
    if s.shapeKind = .picture ∧ ¬ s.isPlaceholder then
      let r := analyzeLoop2 w h rest (pid + 1)
      ((Bucket.image, mkDesc pid .regular_image s w h "صورة موجودة".toList) :: r.1, r.2)
    else
      analyzeLoop2 w h rest pid

/-- The analyzer result: the two creation-ordered entry logs (first
loop: placeholders; second loop: loose pictures) and the slide
dimensions. -/
structure SlideAnalysis where
  log1 : List (Bucket × Desc)
  log2 : List (Bucket × Desc)
  width : ℚ
  height : ℚ
deriving DecidableEq, Repr

/-- `analyze_slide_placeholders`: `None` on a presentation with zero
slides, otherwise the analysis of the first slide. -/
def analyze_slide_placeholders (slides : List (List Shape)) (w h : ℚ) :
    Option SlideAnalysis :=
  match slides with
  | [] => none
  | first :: _ =>
    let r1 := analyzeLoop1 w h first 0
    let r2 := analyzeLoop2 w h first r1.2
    some { log1 := r1.1, log2 := r2.1, width := w, height := h }

/-- `placeholders['image_placeholders']`: picture placeholders in
traversal order, then the loose pictures. -/
def image_placeholders (a : SlideAnalysis) : List Desc :=
  ((a.log1.filter (fun e => e.1 = Bucket.image)).map (fun e => e.2)) ++
    a.log2.map (fun e => e.2)

/-- `placeholders['text_placeholders']`. -/
def text_placeholders (a : SlideAnalysis) : List Desc :=
  (a.log1.filter (fun e => e.1 = Bucket.text)).map (fun e => e.2)

/-- `placeholders['title_placeholders']`. -/
def title_placeholders (a : SlideAnalysis) : List Desc :=
  (a.log1.filter (fun e => e.1 = Bucket.title)).map (fun e => e.2)

/-- Every descriptor the analyzer created, in creation order. -/
def allDescs (a : SlideAnalysis) : List Desc :=
  (a.log1 ++ a.log2).map (fun e => e.2)

/-! ## Slide populator (`apply_configured_placeholders`) -/

/-- The image list computed at the top of `apply_configured_placeholders`:
`sorted([f for f in os.listdir(folder_path) if f.lower().endswith(...)])`. -/
def listImages (files : List Str) : List Str :=
  sortStrs (files.filter isImageFile)

/-- One image rule of the configuration (`config[f"image_{id}"]`).
`order` is the 1-based ordinal from the number input; `0` plays the
role of Python's falsy `None`. -/
structure ImageRule where
  use : Bool
  order : ℕ
  placeholder_info : Desc
deriving DecidableEq, Repr

/-- The image a rule selects from the sorted folder listing:
`imgs[config['order'] - 1]` when `use` holds, `order` is truthy and
`order <= len(imgs)`; otherwise the rule is skipped (`none`). -/
def selectedImage (cfg : ImageRule) (imgs : List Str) : Option Str :=
  if cfg.use ∧ cfg.order ≠ 0 ∧ cfg.order ≤ imgs.length then
    some (imgs.getD (cfg.order - 1) [])
  else
    none

/-- The `target_shapes` membership test: picture placeholders plus
non-placeholder picture shapes. -/
def isImageTarget (s : Shape) : Bool :=
  (s.isPlaceholder && decide (s.phType = .picture)) ||
    (decide (s.shapeKind = ShapeKind.picture) && !s.isPlaceholder)

/-- The spatial match of `apply_configured_placeholders`: the candidate
shape's raw percentage position (unclamped) within 5 points of the
descriptor's recorded position on both axes, strictly. -/
def imageMatch (info : Desc) (s : Shape) (w h : ℚ) : Bool :=
  decide (|s.left / w * 100 - info.left_percent| < 5) &&
    decide (|s.top / h * 100 - info.top_percent| < 5)

/-- Index of the first shape a rule's scan accepts (the `for ... break`
over `target_shapes`): first shape that is a candidate and matches. -/
def findTargetIdx (p : Shape → Bool) : List Shape → Option ℕ
  | [] => none
  | s :: rest => if p s then some 0 else (findTargetIdx p rest).map (· + 1)

/-- `placeholder.insert_picture(stream)`: the placeholder keeps its
frame and placeholder identity; it now carries the image. -/
def insertPicture (s : Shape) (img : Str) : Shape :=
  { s with picture := some img, shapeKind := .picture }

/-- The picture added by `slide.shapes.add_picture` after removing a
loose picture: same frame, not a placeholder. -/
def newPictureShape (old : Shape) (img : Str) : Shape :=
  { isPlaceholder := false, phType := .other, shapeKind := .picture,
    left := old.left, top := old.top, width := old.width, height := old.height,
    rotation := 0, hasTextFrame := false, text := [], picture := some img }

/-- Apply one firing image rule to the slide: find the first candidate
shape matching the rule's descriptor; insert in place if it is a
placeholder, else remove it and append a fresh picture at its frame.
No match leaves the slide unchanged. -/
def applyImageRule (w h : ℚ) (d : Desc) (img : Str) (slide : List Shape) :
    List Shape :=
  match findTargetIdx (fun s => isImageTarget s && imageMatch d s w h) slide with
  | none => slide
  | some i =>
    let s := slide.getD i defaultShape
    if s.isPlaceholder then
      slide.set i (insertPicture s img)
    else
      slide.eraseIdx i ++ [newPictureShape s img]

/-- The image-rule loop of `apply_configured_placeholders`. -/
def applyImages (w h : ℚ) (imgs : List Str) : List ImageRule → List Shape → List Shape
  | [], slide => slide
  | r :: rs, slide =>
    match selectedImage r imgs with
    | none => applyImages w h imgs rs slide
    | some img => applyImages w h imgs rs (applyImageRule w h r.placeholder_info img slide)

/-! ### Text rules -/

/-- The five fill options of the text configuration UI. -/
inductive TextRuleType
  | leaveBlank   -- "ترك فارغ"
  | fixedText    -- "نص ثابت"
  | dateText     -- "تاريخ"
  | imageDate    -- "تاريخ الصورة"
  | folderName   -- "اسم المجلد"
deriving DecidableEq, Repr

/-- One text rule (`config[f"text_{id}"]`): a type and optional value. -/
structure TextRule where
  ttype : TextRuleType
  value : Option Str
deriving DecidableEq, Repr

/-- The context the populator draws on: the processed folder's base
name, today's date string, and the EXIF/mtime date oracle
(`get_image_date`, whose file I/O is out of scope per the spec). -/
structure Ctx where
  folder_name : Str
  today : Str
  imageDateOf : Str → Str

/-- The body of the text loop for one rule and one shape.  A fixed text
whose value is falsy is a no-op; a date rule with value `None` raises
inside the `try` and leaves the text unchanged; `image_date` requires a
non-empty image list. -/
def applyTextRule (ctx : Ctx) (imgs : List Str) (r : TextRule) (s : Shape) : Shape :=
  match r.ttype with
  | .leaveBlank => { s with text := [] }
  | .fixedText =>
    match r.value with
    | some v => if v ≠ [] then { s with text := v } else s
    | none => s
  | .dateText =>
    match r.value with
    | some v => { s with text := if v = "today".toList then ctx.today else v }
    | none => s
  | .imageDate =>
    match imgs with
    | [] => s
    | first :: _ => { s with text := ctx.imageDateOf first }
  | .folderName => { s with text := ctx.folder_name }

/-- The `text_shapes` eligibility test: a placeholder that is neither a
picture nor a title placeholder and has a text frame. -/
def isEligibleText (s : Shape) : Bool :=
  s.isPlaceholder && decide (s.phType ≠ .picture) &&
    decide (s.phType ≠ .title) && s.hasTextFrame

/-- Positions of the eligible text shapes, in shape-traversal order
(the indices in the slide of the members of `text_shapes`). -/
def eligibleIdxs : List Shape → List ℕ
  | [] => []
  | s :: rest =>
    if isEligibleText s then 0 :: (eligibleIdxs rest).map (· + 1)
    else (eligibleIdxs rest).map (· + 1)

/-- Overwrite the shape at index `i` with the rule's effect on it. -/
def setTextAt (ctx : Ctx) (imgs : List Str) (r : TextRule) (i : ℕ)
    (slide : List Shape) : List Shape :=
  slide.set i (applyTextRule ctx imgs r (slide.getD i defaultShape))

/-- The text loop: iterate the rules with the `text_index` counter over
the fixed list of eligible positions; a rule applies only while the
counter is in range, and the counter advances once per applied rule. -/
def applyTextLoop (ctx : Ctx) (imgs : List Str) (idxs : List ℕ) :
    List TextRule → ℕ → List Shape → List Shape
  | [], _, slide => slide
  | r :: rs, tidx, slide =>
    if tidx < idxs.length then
      applyTextLoop ctx imgs idxs rs (tidx + 1)
        (setTextAt ctx imgs r (idxs.getD tidx 0) slide)
    else
      applyTextLoop ctx imgs idxs rs (tidx + 1) slide

/-- The whole text-rule phase of `apply_configured_placeholders`. -/
def applyTexts (ctx : Ctx) (imgs : List Str) (rules : List TextRule)
    (slide : List Shape) : List Shape :=
  applyTextLoop ctx imgs (eligibleIdxs slide) rules 0 slide

/-- Reformulation of the text loop that consumes the position list
instead of indexing it with `text_index` (proved equivalent below). -/
def applyTextConsume (ctx : Ctx) (imgs : List Str) :
    List TextRule → List ℕ → List Shape → List Shape
  | [], _, slide => slide
  | _ :: rs, [], slide => applyTextConsume ctx imgs rs [] slide
  | r :: rs, i :: is, slide =>
    applyTextConsume ctx imgs rs is (setTextAt ctx imgs r i slide)

/-- Structural reformulation of the text loop: walk the slide, pairing
each eligible shape with the next unconsumed rule (proved equivalent
below). -/
def applyTextsStruct (ctx : Ctx) (imgs : List Str) :
    List TextRule → List Shape → List Shape
  | _, [] => []
  | rules, s :: rest =>
    if isEligibleText s then
      match rules with
      | [] => s :: rest
      | r :: rs => applyTextRule ctx imgs r s :: applyTextsStruct ctx imgs rs rest
    else
      s :: applyTextsStruct ctx imgs rules rest

/-! ### Title override -/

/-- Title placeholder test (`title_shapes` membership). -/
def isTitleShape (s : Shape) : Bool :=
  s.isPlaceholder && decide (s.phType = PHType.title)

/-- `title_shapes[0].text = folder_name`: set the text of the first
title placeholder, if any. -/
def setTitle (name : Str) : List Shape → List Shape
  | [] => []
  | s :: rest =>
    if isTitleShape s then { s with text := name } :: rest
    else s :: setTitle name rest

/-! ### The populator -/

/-- The whole configuration (`st.session_state.placeholders_config`),
with the rules in descriptor-id order as the UI builds them. -/
structure Config where
  images : List ImageRule
  texts : List TextRule

/-- `apply_configured_placeholders`: list and sort the folder's images,
run the image rules, run the text rules, then override the title with
the folder's base name. -/
def apply_configured_placeholders (ctx : Ctx) (cfg : Config) (files : List Str)
    (w h : ℚ) (slide : List Shape) : List Shape :=
  let imgs := listImages files
  let s1 := applyImages w h imgs cfg.images slide
  let s2 := applyTexts ctx imgs cfg.texts s1
  setTitle ctx.folder_name s2

/-! ## Batch driver (`step3_process_files`) -/

/-- ZIP member safety test of `step3_process_files`:
`os.path.isabs(member) or ".." in member`.  Note the second disjunct is
Python substring containment, not a path-segment test. -/
def isAbsPath : Str → Bool
  | '/' :: _ => true
  | _ => false

/-- Python `pat in s` substring containment on strings. -/
def substrIn (pat : Str) : Str → Bool
  | [] => pat.isPrefixOf []
  | c :: rest => pat.isPrefixOf (c :: rest) || substrIn pat rest

/-- The two-character pattern `".."` of the safety check. -/
def dotdot : Str := ['.', '.']

/-- `os.path.isabs(member) or ".." in member`. -/
def isUnsafeMember (m : Str) : Bool := isAbsPath m || substrIn dotdot m

/-- The extraction step: validate every member name first; raise (and
write nothing) if any is unsafe, else extract all members. -/
def extractZip (names : List Str) : Except Str (List Str) :=
  if names.any isUnsafeMember then
    Except.error "ZIP contains unsafe paths!".toList
  else
    Except.ok names

/-- The files present in the extraction directory afterwards: none on
an aborted extraction. -/
def writtenFiles (r : Except Str (List Str)) : List Str :=
  match r with
  | .error _ => []
  | .ok l => l

/-- Splitting a path on `'/'`, for speaking about path segments
(used to state what the substring check over- and under-rejects). -/
def splitOnSlash : Str → List Str
  | [] => [[]]
  | c :: cs =>
    if c = '/' then [] :: splitOnSlash cs
    else
      match splitOnSlash cs with
      | [] => [[c]]
      | seg :: segs => (c :: seg) :: segs

/-- A path contains a parent-directory segment when one of its
`'/'`-separated components is exactly `".."`. -/
def hasParentSegment (m : Str) : Bool := (splitOnSlash m).contains dotdot

/-- A top-level entry of the extracted archive: its base name and the
file names it contains. -/
structure Folder where
  name : Str
  files : List Str
deriving DecidableEq, Repr

/-- `imgs_in_folder`: the folder's image files by the extension
filter. -/
def folderImages (f : Folder) : List Str := f.files.filter isImageFile

/-- Insertion into a name-sorted folder list (for `folder_paths.sort()`;
top-level paths share the `temp_dir` prefix, so path order is base-name
order). -/
def insertFolder (a : Folder) : List Folder → List Folder
  | [] => [a]
  | b :: rest =>
    if strLe a.name b.name then a :: b :: rest else b :: insertFolder a rest

/-- Sort folders by name. -/
def sortFolders : List Folder → List Folder
  | [] => []
  | a :: rest => insertFolder a (sortFolders rest)

/-- `folder_paths` after the retention loop and `sort()`: a folder is
appended exactly when it contains at least one image; the
`elif not skip_empty_folders` branch only logs a warning and never
appends, so the flag does not affect retention. -/
def retainedFolders (items : List Folder) (skip_empty_folders : Bool) :
    List Folder :=
  sortFolders (items.filter (fun f => !(folderImages f).isEmpty))

/-- `created_slides` of a fault-free run: one `add_slide` per retained
folder. -/
def createdSlides (items : List Folder) (skip_empty_folders : Bool) : ℕ :=
  (retainedFolders items skip_empty_folders).length

/-- The batch-level image-ordering radio button. -/
inductive ImageOrderOption
  | alphabetical  -- "بالترتيب الأبجدي"
  | random        -- "عشوائي"
deriving DecidableEq, Repr

/-- The per-folder body of the processing loop: compute the local
`imgs` list (shuffled — modelled by the supplied permutation — or
sorted), add a slide and populate it.  `apply_configured_placeholders`
receives only `folder_path`, so it relists and re-sorts the folder
itself; the local `imgs` list contributes only its length
(`total_processed`).  Returns the populated slide and that length. -/
def processFolder (opt : ImageOrderOption) (shuffled : List Str) (ctx0 : Ctx)
    (cfg : Config) (w h : ℚ) (layoutSlide : List Shape) (f : Folder) :
    List Shape × ℕ :=
  let imgs :=
    match opt with
    | .random => shuffled
    | .alphabetical => sortStrs (f.files.filter isImageFile)
  let ctx := { ctx0 with folder_name := f.name }
  (apply_configured_placeholders ctx cfg f.files w h layoutSlide, imgs.length)

/-! ## Concrete fixtures used by the witnesses and evaluations -/

/-- A source descriptor recorded at 10% / 10% of the slide. -/
def dC1 : Desc :=
  { id := 0, dtype := .ph .picture, left := 10, top := 10, width := 20,
    height := 20, left_percent := 10, top_percent := 10, width_percent := 20,
    height_percent := 20, rotation := 0, current_content := [] }

/-- A candidate picture placeholder 4.9 points off on both axes
(on a 100×100 slide its raw percents are 14.9 / 14.9). -/
def sh49 : Shape :=
  { isPlaceholder := true, phType := .picture, shapeKind := .other,
    left := 14.9, top := 14.9, width := 20, height := 20, rotation := 0,
    hasTextFrame := false, text := [], picture := none }

/-- The same candidate moved to 5.1 points off on the left axis. -/
def sh51a : Shape := { sh49 with left := 15.1 }

/-- The same candidate moved to 5.1 points off on the top axis. -/
def sh51b : Shape := { sh49 with top := 15.1 }

/-- The percentage-coordinate contract of one descriptor: each of the
four percentages is the clamped raw ratio, and hence lies in
`[0, 100]`. -/
def percentSpec (w h : ℚ) (d : Desc) : Prop :=
  d.left_percent = clamp_percent (d.left / w * 100) ∧
  d.top_percent = clamp_percent (d.top / h * 100) ∧
  d.width_percent = clamp_percent (d.width / w * 100) ∧
  d.height_percent = clamp_percent (d.height / h * 100) ∧
  (0 ≤ d.left_percent ∧ d.left_percent ≤ 100) ∧
  (0 ≤ d.top_percent ∧ d.top_percent ≤ 100) ∧
  (0 ≤ d.width_percent ∧ d.width_percent ≤ 100) ∧
  (0 ≤ d.height_percent ∧ d.height_percent ≤ 100)

/-- The descriptor ids in assignment order: the first loop's entries in
traversal order, then the second loop's. -/
def assignedIds (a : SlideAnalysis) : List ℕ :=
  (a.log1 ++ a.log2).map (fun e => e.2.id)

/-- A title placeholder shape carrying text, used as a one-shape
template slide by the witnesses. -/
def shapeW : Shape :=
  { isPlaceholder := true, phType := .title, shapeKind := .other,
    left := 5, top := 5, width := 50, height := 10, rotation := 0,
    hasTextFrame := true, text := "Old".toList, picture := none }

/-- The descriptor the analyzer produces for `shapeW`. -/
def dW : Desc := mkDesc 0 (.ph .title) shapeW 100 100 "Old".toList

/-- The analysis of the one-shape template `[[shapeW]]`. -/
def aW : SlideAnalysis :=
  { log1 := [(Bucket.title, dW)], log2 := [], width := 100, height := 100 }

/-- A concrete populator context. -/
def ctxW : Ctx :=
  { folder_name := "Team_A".toList, today := "2026-10-12".toList,
    imageDateOf := fun _ => "2023-05-11".toList }

/-- A picture placeholder at the slide's top-left corner. -/
def picPhShape : Shape :=
  { isPlaceholder := true, phType := .picture, shapeKind := .other,
    left := 0, top := 0, width := 10, height := 10, rotation := 0,
    hasTextFrame := false, text := [], picture := none }

/-- The source descriptor recorded for `picPhShape` (0% / 0%). -/
def dC3 : Desc :=
  { id := 0, dtype := .ph .picture, left := 0, top := 0, width := 10,
    height := 10, left_percent := 0, top_percent := 0, width_percent := 10,
    height_percent := 10, rotation := 0, current_content := [] }

/-- An image rule selecting the first image for `dC3`. -/
def rC3 : ImageRule := { use := true, order := 1, placeholder_info := dC3 }

/-- A configuration with the single image rule `rC3` and no text
rules. -/
def cfgC3 : Config := { images := [rC3], texts := [] }

/-- A folder whose files sort alphabetically to
`["a.jpg", "b.jpg"]`. -/
def folderC3 : Folder :=
  { name := "f1".toList, files := ["a.jpg".toList, "b.jpg".toList] }

/-! ## Helper lemmas -/

theorem isPrefixOf_append (p t : Str) : p.isPrefixOf (p ++ t) = true := by
  induction p with
  | nil => cases t <;> rfl
  | cons a p ih => simp [List.isPrefixOf, ih]

theorem splitOnSlash_cons_slash (rest : Str) :
    splitOnSlash ('/' :: rest) = [] :: splitOnSlash rest := by
  simp [splitOnSlash]

theorem splitOnSlash_cons_ne (c : Char) (rest : Str) (h : ¬ c = '/')
    (seg : Str) (segs : List Str) (hs : splitOnSlash rest = seg :: segs) :
    splitOnSlash (c :: rest) = (c :: seg) :: segs := by
  simp [splitOnSlash, h, hs]

theorem substrIn_nil_pat (m : Str) : substrIn [] m = true := by
  cases m with
  | nil => rfl
  | cons c rest => simp [substrIn, List.isPrefixOf]

theorem substrIn_of_append (pat : Str) :
    ∀ (s t m : Str), s ++ (pat ++ t) = m → substrIn pat m = true := by
  intro s
  induction s with
  | nil =>
    intro t m hm
    subst hm
    cases pat with
    | nil => exact substrIn_nil_pat _
    | cons p ps =>
      simp only [List.nil_append]
      simp [substrIn, isPrefixOf_append (p :: ps) t]
  | cons a s ih =>
    intro t m hm
    subst hm
    simp [substrIn, ih t (s ++ (pat ++ t)) rfl]

theorem splitOnSlash_ne_nil (cs : Str) : splitOnSlash cs ≠ [] := by
  cases cs with
  | nil => simp [splitOnSlash]
  | cons c rest =>
    by_cases h : c = '/'
    · simp [splitOnSlash, h]
    · simp only [splitOnSlash, if_neg h]
      cases hs : splitOnSlash rest with
      | nil => simp
      | cons seg segs => simp

theorem splitOnSlash_spec (cs : Str) :
    (∀ seg ∈ splitOnSlash cs, ∃ s t, s ++ (seg ++ t) = cs) ∧
    (∀ s0 ss, splitOnSlash cs = s0 :: ss → ∃ t, s0 ++ t = cs) := by
  induction cs with
  | nil =>
    constructor
    · intro seg hseg
      simp [splitOnSlash] at hseg
      exact ⟨[], [], by simp [hseg]⟩
    · intro s0 ss h
      simp [splitOnSlash] at h
      exact ⟨[], by simp [h.1]⟩
  | cons c rest ih =>
    by_cases h : c = '/'
    · subst h
      rw [splitOnSlash_cons_slash]
      constructor
      · intro seg hseg
        rcases List.mem_cons.mp hseg with rfl | hseg
        · exact ⟨[], '/' :: rest, by simp⟩
        · obtain ⟨s, t, hst⟩ := ih.1 seg hseg
          exact ⟨'/' :: s, t, by simp [hst]⟩
      · intro s0 ss hss
        injection hss with h1 h2
        exact ⟨'/' :: rest, by simp [← h1]⟩
    · cases hsegs : splitOnSlash rest with
      | nil => exact absurd hsegs (splitOnSlash_ne_nil rest)
      | cons seg segs =>
        rw [splitOnSlash_cons_ne c rest h seg segs hsegs]
        constructor
        · intro x hx
          rcases List.mem_cons.mp hx with rfl | hx
          · obtain ⟨t, ht⟩ := ih.2 seg segs hsegs
            exact ⟨[], t, by simp [ht]⟩
          · obtain ⟨s, t, hst⟩ := ih.1 x (by simp [hsegs, hx])
            exact ⟨c :: s, t, by simp [hst]⟩
        · intro s0 ss hss
          injection hss with h1 h2
          obtain ⟨t, ht⟩ := ih.2 seg segs hsegs
          exact ⟨t, by simp [← h1, ht]⟩

theorem isUnsafe_of_parentSegment (m : Str) (h : hasParentSegment m = true) :
    isUnsafeMember m = true := by
  have hmem : dotdot ∈ splitOnSlash m := by
    have := of_decide_eq_true (by simpa [hasParentSegment] using h)
    exact this
  obtain ⟨s, t, hst⟩ := (splitOnSlash_spec m).1 dotdot hmem
  simp [isUnsafeMember, substrIn_of_append dotdot s t m hst]

/-! ## Claims -/

/-- C1: a candidate picture shape (picture placeholder or loose
picture) matches a rule's source descriptor exactly when both its raw
left and top percentages are strictly within 5 percentage points of
the descriptor's recorded percentages; a 4.9-point offset on both axes
matches and a 5.1-point offset on either axis does not. -/
theorem C1_spatial_match_strict_threshold :
    (∀ (d : Desc) (s : Shape) (w h : ℚ),
      imageMatch d s w h = true ↔
        (|s.left / w * 100 - d.left_percent| < 5 ∧
          |s.top / h * 100 - d.top_percent| < 5)) ∧
    (∀ s : Shape, isImageTarget s = true ↔
      ((s.isPlaceholder = true ∧ s.phType = .picture) ∨
        (s.shapeKind = .picture ∧ s.isPlaceholder = false))) ∧
    imageMatch dC1 sh49 100 100 = true ∧
    imageMatch dC1 sh51a 100 100 = false ∧
    imageMatch dC1 sh51b 100 100 = false := by
  refine ⟨?_, ?_, ?_, ?_, ?_⟩
  · intro d s w h
    simp [imageMatch]
  · intro s
    simp only [isImageTarget, Bool.or_eq_true, Bool.and_eq_true,
      decide_eq_true_eq, Bool.not_eq_true']
  · rw [imageMatch, ← Bool.decide_and]
    apply decide_eq_true
    constructor <;> (rw [abs_lt]; constructor <;> norm_num [dC1, sh49])
  · rw [imageMatch, ← Bool.decide_and]
    apply decide_eq_false
    rintro ⟨h1, -⟩
    rw [abs_lt] at h1
    norm_num [dC1, sh51a, sh49] at h1
  · rw [imageMatch, ← Bool.decide_and]
    apply decide_eq_false
    rintro ⟨-, h2⟩
    rw [abs_lt] at h2
    norm_num [dC1, sh51b, sh49] at h2

/-- C2: with `use = true` and a positive `order` at most the image
count, the rule selects element `order - 1` of the lexicographically
sorted folder listing; with `order` beyond the image count the rule is
skipped — selection is `none` and the image phase leaves the slide
unchanged (no error value exists).  On `["b.jpg","a.jpg","c.jpg"]` the
sorted order is `["a.jpg","b.jpg","c.jpg"]` and `order = 2` selects
`"b.jpg"`. -/
theorem C2_image_rule_selection :
    (∀ (files : List Str) (cfg : ImageRule),
      cfg.use = true → cfg.order ≠ 0 → cfg.order ≤ (listImages files).length →
        selectedImage cfg (listImages files) =
          some ((listImages files).getD (cfg.order - 1) [])) ∧
    (∀ (files : List Str) (cfg : ImageRule) (w h : ℚ) (slide : List Shape),
      (listImages files).length < cfg.order →
        selectedImage cfg (listImages files) = none ∧
        applyImages w h (listImages files) [cfg] slide = slide) ∧
    listImages ["b.jpg".toList, "a.jpg".toList, "c.jpg".toList] =
      ["a.jpg".toList, "b.jpg".toList, "c.jpg".toList] ∧
    selectedImage { use := true, order := 2, placeholder_info := dC1 }
      (listImages ["b.jpg".toList, "a.jpg".toList, "c.jpg".toList]) =
      some "b.jpg".toList := by
  refine ⟨?_, ?_, by decide, by decide⟩
  · intro files cfg hu ho hle
    simp [selectedImage, hu, ho, hle]
  · intro files cfg w h slide hgt
    have hn : selectedImage cfg (listImages files) = none := by
      simp only [selectedImage, ite_eq_right_iff]
      intro hc
      exact absurd hc.2.2 (by omega)
    refine ⟨hn, ?_⟩
    simp [applyImages, hn]

/-- C2 witness: a concrete folder where the first conjunct applies —
`order = 1` on the singleton sorted listing selects its only image. -/
theorem C2_image_rule_selection_witness :
    selectedImage { use := true, order := 1, placeholder_info := dC1 }
      (listImages ["a.jpg".toList]) =
      some ((listImages ["a.jpg".toList]).getD 0 []) :=
  C2_image_rule_selection.1 ["a.jpg".toList]
    { use := true, order := 1, placeholder_info := dC1 } rfl
    (by decide) (by decide)

/-- C7: an archive containing an absolute entry path or an entry with
a parent-directory segment makes the extraction step raise before
anything is extracted: the result is the error `"ZIP contains unsafe
paths!"` and zero files are written. -/
theorem C7_unsafe_entries_abort_extraction :
    ∀ (names : List Str) (m : Str), m ∈ names →
      (isAbsPath m = true ∨ hasParentSegment m = true) →
      extractZip names = Except.error "ZIP contains unsafe paths!".toList ∧
      writtenFiles (extractZip names) = [] := by
  intro names m hm hunsafe
  have hu : isUnsafeMember m = true := by
    rcases hunsafe with h | h
    · simp [isUnsafeMember, h]
    · exact isUnsafe_of_parentSegment m h
  have hany : names.any isUnsafeMember = true := List.any_eq_true.mpr ⟨m, hm, hu⟩
  exact ⟨by simp [extractZip, hany], by simp [extractZip, writtenFiles, hany]⟩

/-- C7 witness: a two-entry archive whose second entry is `"../b"`
aborts with nothing written. -/
theorem C7_unsafe_entries_abort_extraction_witness :
    extractZip ["a/x.png".toList, "../b".toList] =
      Except.error "ZIP contains unsafe paths!".toList ∧
    writtenFiles (extractZip ["a/x.png".toList, "../b".toList]) = [] :=
  C7_unsafe_entries_abort_extraction ["a/x.png".toList, "../b".toList]
    "../b".toList (by simp) (Or.inr (by decide))

/-- C10: the safety check is substring containment of `".."`, not a
path-segment test — it rejects every name with a `".."` segment, but
also the benign `"a..b.png"`, which has no parent-directory segment
yet still aborts extraction with zero files written. -/
theorem C10_substring_check_over_rejects :
    (∀ m : Str, hasParentSegment m = true → isUnsafeMember m = true) ∧
    isUnsafeMember "a..b.png".toList = true ∧
    hasParentSegment "a..b.png".toList = false ∧
    extractZip ["a..b.png".toList] =
      Except.error "ZIP contains unsafe paths!".toList ∧
    writtenFiles (extractZip ["a..b.png".toList]) = [] := by
  have hu : isUnsafeMember ['a', '.', '.', 'b', '.', 'p', 'n', 'g'] = true := by
    decide
  refine ⟨isUnsafe_of_parentSegment, by decide, by decide,
    by simp [extractZip, hu], by simp [extractZip, writtenFiles, hu]⟩

/-- C10 witness: the first conjunct applied to the concrete entry
`"x/../y"`, whose middle segment is `".."`. -/
theorem C10_substring_check_over_rejects_witness :
    isUnsafeMember "x/../y".toList = true :=
  C10_substring_check_over_rejects.1 "x/../y".toList (by decide)

/-- C6 evaluation: with the include-empty option selected
(`skip_empty_folders = false`), a folder without images is still not
retained — retention is independent of the flag, which only controls a
log line; retained folders are sorted by name and produce one slide
each. -/
theorem C6_empty_folder_not_retained :
    retainedFolders
      [⟨"empty".toList, ["note.txt".toList]⟩, ⟨"full".toList, ["x.jpg".toList]⟩]
      false = [⟨"full".toList, ["x.jpg".toList]⟩] ∧
    createdSlides
      [⟨"empty".toList, ["note.txt".toList]⟩, ⟨"full".toList, ["x.jpg".toList]⟩]
      false = 1 ∧
    retainedFolders
      [⟨"b".toList, ["i.png".toList]⟩, ⟨"a".toList, ["j.png".toList]⟩] true =
      [⟨"a".toList, ["j.png".toList]⟩, ⟨"b".toList, ["i.png".toList]⟩] ∧
    (∀ items : List Folder, retainedFolders items false = retainedFolders items true) := by
  exact ⟨by decide, by decide, by decide, fun items => rfl⟩


/-! ## Analyzer lemmas (for C8 and C9) -/

theorem clamp_percent_nonneg (v : ℚ) : 0 ≤ clamp_percent v :=
  le_max_left 0 _

theorem clamp_percent_le_100 (v : ℚ) : clamp_percent v ≤ 100 :=
  max_le (by norm_num) (min_le_right v 100)

theorem percentSpec_mkDesc (w h : ℚ) (pid : ℕ) (t : DescType) (s : Shape)
    (c : Str) : percentSpec w h (mkDesc pid t s w h c) := by
  refine ⟨rfl, rfl, rfl, rfl, ?_, ?_, ?_, ?_⟩ <;>
    exact ⟨clamp_percent_nonneg _, clamp_percent_le_100 _⟩

theorem placeholderEntry_percentSpec (w h : ℚ) (pid : ℕ) (s : Shape)
    (e : Bucket × Desc) (he : placeholderEntry w h pid s = some e) :
    percentSpec w h e.2 := by
  unfold placeholderEntry at he
  split at he
  · injection he with he
    subst he
    exact percentSpec_mkDesc ..
  · split at he
    · injection he with he
      subst he
      exact percentSpec_mkDesc ..
    · split at he
      · injection he with he
        subst he
        exact percentSpec_mkDesc ..
      · exact absurd he (by simp)

theorem analyzeLoop1_percentSpec (w h : ℚ) :
    ∀ (shapes : List Shape) (pid : ℕ) (e : Bucket × Desc),
      e ∈ (analyzeLoop1 w h shapes pid).1 → percentSpec w h e.2 := by
  intro shapes
  induction shapes with
  | nil => intro pid e he; simp [analyzeLoop1] at he
  | cons s rest ih =>
    intro pid e he
    by_cases hp : s.isPlaceholder
    · simp only [analyzeLoop1, if_pos hp, List.mem_append] at he
      rcases he with he | he
      · cases hpe : placeholderEntry w h pid s with
        | none => rw [hpe] at he; simp at he
        | some e0 =>
          rw [hpe] at he
          simp only [Option.toList_some, List.mem_singleton] at he
          rw [he]
          exact placeholderEntry_percentSpec w h pid s e0 hpe
      · exact ih (pid + 1) e he
    · simp only [analyzeLoop1, if_neg hp] at he
      exact ih pid e he

theorem analyzeLoop2_percentSpec (w h : ℚ) :
    ∀ (shapes : List Shape) (pid : ℕ) (e : Bucket × Desc),
      e ∈ (analyzeLoop2 w h shapes pid).1 → percentSpec w h e.2 := by
  intro shapes
  induction shapes with
  | nil => intro pid e he; simp [analyzeLoop2] at he
  | cons s rest ih =>
    intro pid e he
    by_cases hp : s.shapeKind = ShapeKind.picture ∧ ¬ s.isPlaceholder
    · simp only [analyzeLoop2, if_pos hp, List.mem_cons] at he
      rcases he with rfl | he
      · exact percentSpec_mkDesc ..
      · exact ih (pid + 1) e he
    · simp only [analyzeLoop2, if_neg hp] at he
      exact ih pid e he

/-- C8: every descriptor the analyzer computes for a shape of the first
slide has its four percentage coordinates equal to
`clamp(raw / dimension * 100, 0, 100)`, and therefore in `[0, 100]`,
whatever the raw geometry. -/
theorem C8_percent_clamp_invariant :
    ∀ (slides : List (List Shape)) (w h : ℚ) (a : SlideAnalysis),
      analyze_slide_placeholders slides w h = some a →
      ∀ d ∈ allDescs a, percentSpec w h d := by
  intro slides w h a ha d hd
  cases slides with
  | nil => exact absurd ha (by simp [analyze_slide_placeholders])
  | cons first restSlides =>
    simp only [analyze_slide_placeholders, Option.some.injEq] at ha
    subst ha
    simp only [allDescs, List.mem_map, List.mem_append] at hd
    obtain ⟨e, he, rfl⟩ := hd
    rcases he with he | he
    · exact analyzeLoop1_percentSpec w h first 0 e he
    · exact analyzeLoop2_percentSpec w h first _ e he

/-- C8 witness: the analyzer applied to the concrete one-shape template
`[[shapeW]]` yields the descriptor `dW`, whose coordinates obey the
clamp contract. -/
theorem C8_percent_clamp_invariant_witness : percentSpec 100 100 dW :=
  C8_percent_clamp_invariant [[shapeW]] 100 100 aW rfl dW
    (by simp [allDescs, aW])

theorem placeholderEntry_id (w h : ℚ) (pid : ℕ) (s : Shape)
    (e : Bucket × Desc) (he : placeholderEntry w h pid s = some e) :
    e.2.id = pid := by
  unfold placeholderEntry at he
  split at he
  · injection he with he; rw [← he]; rfl
  · split at he
    · injection he with he; rw [← he]; rfl
    · split at he
      · injection he with he; rw [← he]; rfl
      · exact absurd he (by simp)

theorem placeholderEntry_dtype (w h : ℚ) (pid : ℕ) (s : Shape)
    (e : Bucket × Desc) (he : placeholderEntry w h pid s = some e) :
    e.2.dtype ≠ DescType.regular_image := by
  unfold placeholderEntry at he
  split at he
  · injection he with he; rw [← he]; simp [mkDesc]
  · split at he
    · injection he with he; rw [← he]; simp [mkDesc]
    · split at he
      · injection he with he; rw [← he]; simp [mkDesc]
      · exact absurd he (by simp)

theorem analyzeLoop1_ids (w h : ℚ) :
    ∀ (shapes : List Shape) (pid : ℕ),
      pid ≤ (analyzeLoop1 w h shapes pid).2 ∧
      (∀ e ∈ (analyzeLoop1 w h shapes pid).1,
        pid ≤ e.2.id ∧ e.2.id < (analyzeLoop1 w h shapes pid).2) ∧
      List.Pairwise (· < ·)
        ((analyzeLoop1 w h shapes pid).1.map (fun e => e.2.id)) ∧
      (∀ e ∈ (analyzeLoop1 w h shapes pid).1,
        e.2.dtype ≠ DescType.regular_image) := by
  intro shapes
  induction shapes with
  | nil =>
    intro pid
    simp [analyzeLoop1]
  | cons s rest ih =>
    intro pid
    by_cases hp : s.isPlaceholder
    · obtain ⟨ih1, ih2, ih3, ih4⟩ := ih (pid + 1)
      simp only [analyzeLoop1, if_pos hp]
      cases hpe : placeholderEntry w h pid s with
      | none =>
        simp only [Option.toList_none, List.nil_append]
        exact ⟨by omega, fun e he => ⟨by have := (ih2 e he).1; omega, (ih2 e he).2⟩,
          ih3, ih4⟩
      | some e0 =>
        have hid : e0.2.id = pid := placeholderEntry_id w h pid s e0 hpe
        simp only [Option.toList_some, List.singleton_append]
        refine ⟨by omega, ?_, ?_, ?_⟩
        · intro e he
          rcases List.mem_cons.mp he with rfl | he
          · have h2 := ih1
            constructor
            · omega
            · rw [hid]; omega
          · exact ⟨by have := (ih2 e he).1; omega, (ih2 e he).2⟩
        · rw [List.map_cons]
          refine List.pairwise_cons.mpr ⟨?_, ih3⟩
          intro b hb
          obtain ⟨e, he, rfl⟩ := List.mem_map.mp hb
          have := (ih2 e he).1
          rw [hid]
          omega
        · intro e he
          rcases List.mem_cons.mp he with rfl | he
          · exact placeholderEntry_dtype w h pid s e hpe
          · exact ih4 e he
    · simp only [analyzeLoop1, if_neg hp]
      exact ih pid

theorem analyzeLoop2_ids (w h : ℚ) :
    ∀ (shapes : List Shape) (pid : ℕ),
      pid ≤ (analyzeLoop2 w h shapes pid).2 ∧
      (∀ e ∈ (analyzeLoop2 w h shapes pid).1,
        pid ≤ e.2.id ∧ e.2.id < (analyzeLoop2 w h shapes pid).2) ∧
      List.Pairwise (· < ·)
        ((analyzeLoop2 w h shapes pid).1.map (fun e => e.2.id)) ∧
      (∀ e ∈ (analyzeLoop2 w h shapes pid).1,
        e.2.dtype = DescType.regular_image) := by
  intro shapes
  induction shapes with
  | nil =>
    intro pid
    simp [analyzeLoop2]
  | cons s rest ih =>
    intro pid
    by_cases hp : s.shapeKind = ShapeKind.picture ∧ ¬ s.isPlaceholder
    · obtain ⟨ih1, ih2, ih3, ih4⟩ := ih (pid + 1)
      simp only [analyzeLoop2, if_pos hp]
      refine ⟨by omega, ?_, ?_, ?_⟩
      · intro e he
        rcases List.mem_cons.mp he with rfl | he
        · exact ⟨le_refl pid, by simp [mkDesc]; omega⟩
        · exact ⟨by have := (ih2 e he).1; omega, (ih2 e he).2⟩
      · rw [List.map_cons]
        refine List.pairwise_cons.mpr ⟨?_, ih3⟩
        intro b hb
        obtain ⟨e, he, rfl⟩ := List.mem_map.mp hb
        have := (ih2 e he).1
        simp only [mkDesc]
        omega
      · intro e he
        rcases List.mem_cons.mp he with rfl | he
        · rfl
        · exact ih4 e he
    · simp only [analyzeLoop2, if_neg hp]
      exact ih pid

/-- C9: the descriptor ids, read in assignment order (first loop's
placeholder descriptors in traversal order, then the second loop's
loose-picture descriptors in traversal order), are strictly increasing
— hence pairwise unique — and every placeholder descriptor's id
precedes every loose-picture descriptor's id. -/
theorem C9_ids_strictly_increasing :
    ∀ (slides : List (List Shape)) (w h : ℚ) (a : SlideAnalysis),
      analyze_slide_placeholders slides w h = some a →
      List.Pairwise (· < ·) (assignedIds a) ∧
      (assignedIds a).Nodup ∧
      (∀ e ∈ a.log1, e.2.dtype ≠ DescType.regular_image) ∧
      (∀ e ∈ a.log2, e.2.dtype = DescType.regular_image) ∧
      (∀ e1 ∈ a.log1, ∀ e2 ∈ a.log2, e1.2.id < e2.2.id) := by
  intro slides w h a ha
  cases slides with
  | nil => exact absurd ha (by simp [analyze_slide_placeholders])
  | cons first restSlides =>
    simp only [analyze_slide_placeholders, Option.some.injEq] at ha
    subst ha
    obtain ⟨h11, h12, h13, h14⟩ := analyzeLoop1_ids w h first 0
    obtain ⟨h21, h22, h23, h24⟩ :=
      analyzeLoop2_ids w h first (analyzeLoop1 w h first 0).2
    have hcross : ∀ e1 ∈ (analyzeLoop1 w h first 0).1,
        ∀ e2 ∈ (analyzeLoop2 w h first (analyzeLoop1 w h first 0).2).1,
        e1.2.id < e2.2.id := by
      intro e1 he1 e2 he2
      have := (h12 e1 he1).2
      have := (h22 e2 he2).1
      omega
    have hpw : List.Pairwise (· < ·) (assignedIds
        { log1 := (analyzeLoop1 w h first 0).1,
          log2 := (analyzeLoop2 w h first (analyzeLoop1 w h first 0).2).1,
          width := w, height := h }) := by
      simp only [assignedIds, List.map_append]
      refine List.pairwise_append.mpr ⟨h13, h23, ?_⟩
      intro x hx y hy
      obtain ⟨e1, he1, rfl⟩ := List.mem_map.mp hx
      obtain ⟨e2, he2, rfl⟩ := List.mem_map.mp hy
      exact hcross e1 he1 e2 he2
    exact ⟨hpw, hpw.imp ne_of_lt, h14, h24, hcross⟩

/-- C9 witness: the concrete one-shape analysis `aW` has strictly
increasing assigned ids. -/
theorem C9_ids_strictly_increasing_witness :
    List.Pairwise (· < ·) (assignedIds aW) :=
  (C9_ids_strictly_increasing [[shapeW]] 100 100 aW rfl).1

/-! ## Text-loop lemmas (for C4 and C5) -/

theorem applyTextRule_text_only (ctx : Ctx) (imgs : List Str) (r : TextRule)
    (s : Shape) :
    applyTextRule ctx imgs r s = s ∨
      ∃ x, applyTextRule ctx imgs r s = { s with text := x } := by
  rcases r with ⟨t, v⟩
  cases t with
  | leaveBlank => exact Or.inr ⟨[], rfl⟩
  | fixedText =>
    cases v with
    | none => exact Or.inl rfl
    | some x =>
      by_cases hx : x = []
      · exact Or.inl (by simp [applyTextRule, hx])
      · exact Or.inr ⟨x, by simp [applyTextRule, hx]⟩
  | dateText =>
    cases v with
    | none => exact Or.inl rfl
    | some x => exact Or.inr ⟨_, rfl⟩
  | imageDate =>
    cases imgs with
    | nil => exact Or.inl rfl
    | cons a as => exact Or.inr ⟨_, rfl⟩
  | folderName => exact Or.inr ⟨_, rfl⟩

theorem isEligibleText_applyTextRule (ctx : Ctx) (imgs : List Str)
    (r : TextRule) (s : Shape) :
    isEligibleText (applyTextRule ctx imgs r s) = isEligibleText s := by
  rcases applyTextRule_text_only ctx imgs r s with h | ⟨x, h⟩ <;>
    simp [h, isEligibleText]

theorem isTitleShape_applyTextRule (ctx : Ctx) (imgs : List Str)
    (r : TextRule) (s : Shape) :
    isTitleShape (applyTextRule ctx imgs r s) = isTitleShape s := by
  rcases applyTextRule_text_only ctx imgs r s with h | ⟨x, h⟩ <;>
    simp [h, isTitleShape]

theorem applyTextConsume_nil_idxs (ctx : Ctx) (imgs : List Str) :
    ∀ (rules : List TextRule) (slide : List Shape),
      applyTextConsume ctx imgs rules [] slide = slide := by
  intro rules
  induction rules with
  | nil => intro slide; rfl
  | cons r rs ih => intro slide; exact ih slide

theorem drop_eq_getD_cons :
    ∀ (l : List ℕ) (n : ℕ), n < l.length →
      l.drop n = l.getD n 0 :: l.drop (n + 1) := by
  intro l
  induction l with
  | nil => intro n h; simp at h
  | cons a t ih =>
    intro n h
    cases n with
    | zero => simp
    | succ m =>
      have hm : m < t.length := by simpa using h
      simpa using ih m hm

theorem applyTextLoop_eq_consume (ctx : Ctx) (imgs : List Str) :
    ∀ (rules : List TextRule) (idxs : List ℕ) (tidx : ℕ) (slide : List Shape),
      applyTextLoop ctx imgs idxs rules tidx slide =
        applyTextConsume ctx imgs rules (idxs.drop tidx) slide := by
  intro rules
  induction rules with
  | nil => intro idxs tidx slide; rfl
  | cons r rs ih =>
    intro idxs tidx slide
    by_cases h : tidx < idxs.length
    · rw [drop_eq_getD_cons idxs tidx h]
      simp only [applyTextLoop, if_pos h, applyTextConsume]
      exact ih idxs (tidx + 1) (setTextAt ctx imgs r (idxs.getD tidx 0) slide)
    · have hd1 : idxs.drop tidx = [] :=
        List.drop_eq_nil_of_le (le_of_not_lt h)
      have hd2 : idxs.drop (tidx + 1) = [] :=
        List.drop_eq_nil_of_le (by omega)
      rw [hd1]
      simp only [applyTextLoop, if_neg h, applyTextConsume]
      rw [ih idxs (tidx + 1) slide, hd2]

theorem setTextAt_cons_succ (ctx : Ctx) (imgs : List Str) (r : TextRule)
    (i : ℕ) (x : Shape) (rest : List Shape) :
    setTextAt ctx imgs r (i + 1) (x :: rest) =
      x :: setTextAt ctx imgs r i rest := by
  simp [setTextAt]

theorem setTextAt_cons_zero (ctx : Ctx) (imgs : List Str) (r : TextRule)
    (x : Shape) (rest : List Shape) :
    setTextAt ctx imgs r 0 (x :: rest) =
      applyTextRule ctx imgs r x :: rest := by
  simp [setTextAt]

theorem applyTextConsume_shift (ctx : Ctx) (imgs : List Str) :
    ∀ (rules : List TextRule) (is : List ℕ) (x : Shape) (rest : List Shape),
      applyTextConsume ctx imgs rules (is.map (· + 1)) (x :: rest) =
        x :: applyTextConsume ctx imgs rules is rest := by
  intro rules
  induction rules with
  | nil => intro is x rest; rfl
  | cons r rs ih =>
    intro is x rest
    cases is with
    | nil =>
      simp only [List.map_nil]
      show applyTextConsume ctx imgs rs [] (x :: rest) =
        x :: applyTextConsume ctx imgs rs [] rest
      rw [applyTextConsume_nil_idxs, applyTextConsume_nil_idxs]
    | cons i is2 =>
      simp only [List.map_cons]
      show applyTextConsume ctx imgs rs (is2.map (· + 1))
          (setTextAt ctx imgs r (i + 1) (x :: rest)) =
        x :: applyTextConsume ctx imgs rs is2 (setTextAt ctx imgs r i rest)
      rw [setTextAt_cons_succ, ih]

theorem applyTextConsume_eligible (ctx : Ctx) (imgs : List Str) :
    ∀ (slide : List Shape) (rules : List TextRule),
      applyTextConsume ctx imgs rules (eligibleIdxs slide) slide =
        applyTextsStruct ctx imgs rules slide := by
  intro slide
  induction slide with
  | nil =>
    intro rules
    rw [show eligibleIdxs [] = [] from rfl, applyTextConsume_nil_idxs]
    cases rules <;> rfl
  | cons s rest ih =>
    intro rules
    by_cases he : isEligibleText s
    · rw [show eligibleIdxs (s :: rest) =
          0 :: (eligibleIdxs rest).map (· + 1) from by
        simp [eligibleIdxs, he]]
      cases rules with
      | nil => simp [applyTextConsume, applyTextsStruct, he]
      | cons r rs =>
        show applyTextConsume ctx imgs rs ((eligibleIdxs rest).map (· + 1))
            (setTextAt ctx imgs r 0 (s :: rest)) = _
        rw [setTextAt_cons_zero, applyTextConsume_shift, ih rs]
        simp [applyTextsStruct, he]
    · rw [show eligibleIdxs (s :: rest) =
          (eligibleIdxs rest).map (· + 1) from by
        simp [eligibleIdxs, he]]
      rw [applyTextConsume_shift, ih rules]
      simp [applyTextsStruct, he]

theorem applyTexts_eq_struct (ctx : Ctx) (imgs : List Str)
    (rules : List TextRule) (slide : List Shape) :
    applyTexts ctx imgs rules slide =
      applyTextsStruct ctx imgs rules slide := by
  rw [applyTexts, applyTextLoop_eq_consume, List.drop_zero,
    applyTextConsume_eligible]

/-- C4: text rules pair positionally with eligible shapes — running the
text phase, the eligible text shapes of the result are exactly: the
Nth configured rule applied to the Nth eligible shape of the input
slide (in shape-traversal order), with each rule consuming exactly one
eligible shape, and the surplus eligible shapes untouched. -/
theorem C4_text_rules_positional_pairing :
    ∀ (ctx : Ctx) (imgs : List Str) (rules : List TextRule)
      (slide : List Shape),
      (applyTexts ctx imgs rules slide).filter isEligibleText =
        ((rules.zip (slide.filter isEligibleText)).map
          (fun p => applyTextRule ctx imgs p.1 p.2)) ++
        (slide.filter isEligibleText).drop rules.length := by
  intro ctx imgs rules slide
  rw [applyTexts_eq_struct]
  induction slide generalizing rules with
  | nil => simp [applyTextsStruct]
  | cons s rest ih =>
    by_cases he : isEligibleText s
    · cases rules with
      | nil => simp [applyTextsStruct, List.filter_cons, he]
      | cons r rs =>
        simp only [applyTextsStruct, if_pos he]
        rw [List.filter_cons, if_pos (by
          rw [isEligibleText_applyTextRule]; exact he), List.filter_cons,
          if_pos he]
        simp only [List.zip_cons_cons, List.map_cons, List.length_cons,
          List.drop_succ_cons, List.cons_append]
        rw [ih rs]
    · simp only [applyTextsStruct, if_neg he]
      rw [List.filter_cons, if_neg (by simpa using he), List.filter_cons,
        if_neg (by simpa using he)]
      exact ih rules

/-! ## Title-preservation lemmas (for C5) -/

theorem filter_set_of_neg (p : Shape → Bool) :
    ∀ (l : List Shape) (i : ℕ) (x : Shape),
      p (l.getD i defaultShape) = false → p x = false →
      (l.set i x).filter p = l.filter p := by
  intro l
  induction l with
  | nil => intro i x _ _; rfl
  | cons a t ih =>
    intro i x hold hx
    cases i with
    | zero =>
      have ha : p a = false := by simpa using hold
      simp [List.filter_cons, ha, hx]
    | succ m =>
      have hold2 : p (t.getD m defaultShape) = false := by simpa using hold
      simp only [List.set_cons_succ, List.filter_cons]
      rw [ih m x hold2 hx]

theorem filter_eraseIdx_of_neg (p : Shape → Bool) :
    ∀ (l : List Shape) (i : ℕ),
      p (l.getD i defaultShape) = false →
      (l.eraseIdx i).filter p = l.filter p := by
  intro l
  induction l with
  | nil => intro i _; rfl
  | cons a t ih =>
    intro i hold
    cases i with
    | zero =>
      have ha : p a = false := by simpa using hold
      simp [List.filter_cons, ha]
    | succ m =>
      have hold2 : p (t.getD m defaultShape) = false := by simpa using hold
      simp only [List.eraseIdx_cons_succ, List.filter_cons]
      rw [ih m hold2]

theorem findTargetIdx_spec (p : Shape → Bool) :
    ∀ (l : List Shape) (i : ℕ), findTargetIdx p l = some i →
      p (l.getD i defaultShape) = true := by
  intro l
  induction l with
  | nil => intro i h; simp [findTargetIdx] at h
  | cons s rest ih =>
    intro i h
    by_cases hs : p s
    · simp only [findTargetIdx, if_pos hs, Option.some.injEq] at h
      rw [← h]
      simpa using hs
    · simp only [findTargetIdx, if_neg hs, Option.map_eq_some'] at h
      obtain ⟨j, hj, rfl⟩ := h
      simpa using ih j hj

theorem isTitleShape_of_target_false (s : Shape)
    (h : isImageTarget s = true) : isTitleShape s = false := by
  simp only [isImageTarget, Bool.or_eq_true, Bool.and_eq_true,
    decide_eq_true_eq, Bool.not_eq_true'] at h
  simp only [isTitleShape, Bool.and_eq_false_iff, decide_eq_false_iff_not]
  rcases h with ⟨hp, ht⟩ | ⟨hk, hp⟩
  · exact Or.inr (by rw [ht]; intro hc; cases hc)
  · exact Or.inl (by simp [hp])

theorem isTitleShape_insertPicture (s : Shape) (img : Str) :
    isTitleShape (insertPicture s img) = isTitleShape s := rfl

theorem isTitleShape_newPictureShape (old : Shape) (img : Str) :
    isTitleShape (newPictureShape old img) = false := rfl

theorem applyImageRule_titleFilter (w h : ℚ) (d : Desc) (img : Str)
    (slide : List Shape) :
    (applyImageRule w h d img slide).filter isTitleShape =
      slide.filter isTitleShape := by
  unfold applyImageRule
  cases hf : findTargetIdx (fun s => isImageTarget s && imageMatch d s w h) slide with
  | none => rfl
  | some i =>
    have hspec := findTargetIdx_spec _ slide i hf
    have htarget : isImageTarget (slide.getD i defaultShape) = true := by
      have := Bool.and_eq_true .. ▸ hspec
      exact this.1
    have hnt : isTitleShape (slide.getD i defaultShape) = false :=
      isTitleShape_of_target_false _ htarget
    by_cases hp : (slide.getD i defaultShape).isPlaceholder
    · simp only [if_pos hp]
      exact filter_set_of_neg isTitleShape slide i _
        hnt (by rw [isTitleShape_insertPicture]; exact hnt)
    · simp only [if_neg hp]
      rw [List.filter_append, filter_eraseIdx_of_neg isTitleShape slide i hnt]
      simp [List.filter_cons, isTitleShape_newPictureShape]

theorem applyImages_titleFilter (w h : ℚ) (imgs : List Str) :
    ∀ (rules : List ImageRule) (slide : List Shape),
      (applyImages w h imgs rules slide).filter isTitleShape =
        slide.filter isTitleShape := by
  intro rules
  induction rules with
  | nil => intro slide; rfl
  | cons r rs ih =>
    intro slide
    simp only [applyImages]
    cases selectedImage r imgs with
    | none => exact ih slide
    | some img =>
      rw [ih (applyImageRule w h r.placeholder_info img slide),
        applyImageRule_titleFilter]

theorem isTitleShape_of_eligible_false (s : Shape)
    (h : isEligibleText s = true) : isTitleShape s = false := by
  simp only [isEligibleText, Bool.and_eq_true, decide_eq_true_eq] at h
  simp only [isTitleShape, Bool.and_eq_false_iff, decide_eq_false_iff_not]
  exact Or.inr h.1.2

theorem applyTextsStruct_titleFilter (ctx : Ctx) (imgs : List Str) :
    ∀ (slide : List Shape) (rules : List TextRule),
      (applyTextsStruct ctx imgs rules slide).filter isTitleShape =
        slide.filter isTitleShape := by
  intro slide
  induction slide with
  | nil => intro rules; cases rules <;> rfl
  | cons s rest ih =>
    intro rules
    by_cases he : isEligibleText s
    · cases rules with
      | nil => simp [applyTextsStruct, he]
      | cons r rs =>
        simp only [applyTextsStruct, if_pos he, List.filter_cons]
        rw [isTitleShape_applyTextRule, isTitleShape_of_eligible_false s he,
          ih rs]
        simp [isTitleShape_of_eligible_false s he]
    · simp only [applyTextsStruct, if_neg he, List.filter_cons]
      rw [ih rules]

theorem applyTexts_titleFilter (ctx : Ctx) (imgs : List Str)
    (rules : List TextRule) (slide : List Shape) :
    (applyTexts ctx imgs rules slide).filter isTitleShape =
      slide.filter isTitleShape := by
  rw [applyTexts_eq_struct, applyTextsStruct_titleFilter]

theorem setTitle_titleFilter (name : Str) :
    ∀ (slide : List Shape) (t : Shape) (ts : List Shape),
      slide.filter isTitleShape = t :: ts →
      (setTitle name slide).filter isTitleShape =
        { t with text := name } :: ts := by
  intro slide
  induction slide with
  | nil => intro t ts h; simp at h
  | cons s rest ih =>
    intro t ts h
    by_cases hs : isTitleShape s
    · rw [List.filter_cons, if_pos hs] at h
      injection h with h1 h2
      simp only [setTitle, if_pos hs, List.filter_cons]
      have hts : isTitleShape { s with text := name } = isTitleShape s := rfl
      rw [hts, if_pos hs, h2, h1]
    · rw [List.filter_cons, if_neg (by simpa using hs)] at h
      simp only [setTitle, if_neg hs, List.filter_cons,
        if_neg (by simpa using hs : ¬ isTitleShape s = true)]
      exact ih t ts h

/-- C5: whatever the configuration and folder contents, if the slide
contains a title placeholder then after `apply_configured_placeholders`
the first title placeholder's text equals the folder's base name (the
title phase runs last and overrides everything else; the image and
text phases never touch a title placeholder). -/
theorem C5_title_overridden_with_folder_name :
    ∀ (ctx : Ctx) (cfg : Config) (files : List Str) (w h : ℚ)
      (slide : List Shape) (t : Shape) (ts : List Shape),
      slide.filter isTitleShape = t :: ts →
      (apply_configured_placeholders ctx cfg files w h slide).filter
          isTitleShape = { t with text := ctx.folder_name } :: ts := by
  intro ctx cfg files w h slide t ts htitle
  unfold apply_configured_placeholders
  apply setTitle_titleFilter
  rw [applyTexts_titleFilter, applyImages_titleFilter]
  exact htitle

/-- C5 witness: on the one-title-shape slide `[shapeW]` with an empty
configuration and empty folder, the title text becomes the folder
name `ctxW.folder_name`. -/
theorem C5_title_overridden_with_folder_name_witness :
    (apply_configured_placeholders ctxW { images := [], texts := [] } []
        100 100 [shapeW]).filter isTitleShape =
      [{ shapeW with text := ctxW.folder_name }] :=
  C5_title_overridden_with_folder_name ctxW { images := [], texts := [] }
    [] 100 100 [shapeW] shapeW [] rfl

/-! ## C3: the shuffle option never reaches the populator -/

theorem imageMatch_dC3_picPhShape : imageMatch dC3 picPhShape 100 100 = true := by
  rw [imageMatch, ← Bool.decide_and]
  apply decide_eq_true
  constructor <;> (rw [abs_lt]; constructor <;> norm_num [dC3, picPhShape])

theorem findTargetIdx_picPhShape :
    findTargetIdx (fun s => isImageTarget s && imageMatch dC3 s 100 100)
      [picPhShape] = some 0 := by
  have htarget : isImageTarget picPhShape = true := by decide
  simp [findTargetIdx, htarget, imageMatch_dC3_picPhShape]

theorem applyImageRule_picPhShape :
    applyImageRule 100 100 dC3 "a.jpg".toList [picPhShape] =
      [insertPicture picPhShape "a.jpg".toList] := by
  unfold applyImageRule
  rw [findTargetIdx_picPhShape]
  rfl

/-- C3: the batch-level shuffle never affects the populated slide.  The
shuffled list computed in `step3_process_files` is local — only its
length is used — while `apply_configured_placeholders` relists and
re-sorts the folder itself; so the populated slide is identical for
every ordering option and every shuffle outcome, and on the concrete
folder `["a.jpg","b.jpg"]` shuffled to `["b.jpg","a.jpg"]` the rule
with `order = 1` still inserts `"a.jpg"` (the alphabetical first), not
`"b.jpg"` as the shuffled order would demand. -/
theorem C3_shuffle_never_reaches_populator :
    (∀ (opt opt' : ImageOrderOption) (sh sh' : List Str) (ctx : Ctx)
        (cfg : Config) (w h : ℚ) (layout : List Shape) (f : Folder),
      (processFolder opt sh ctx cfg w h layout f).1 =
        (processFolder opt' sh' ctx cfg w h layout f).1) ∧
    (processFolder .random ["b.jpg".toList, "a.jpg".toList] ctxW cfgC3
        100 100 [picPhShape] folderC3).1 =
      [insertPicture picPhShape "a.jpg".toList] ∧
    (processFolder .random ["b.jpg".toList, "a.jpg".toList] ctxW cfgC3
        100 100 [picPhShape] folderC3).1 ≠
      [insertPicture picPhShape "b.jpg".toList] ∧
    listImages folderC3.files = ["a.jpg".toList, "b.jpg".toList] := by
  have himgs : listImages folderC3.files =
      ["a.jpg".toList, "b.jpg".toList] := by decide
  have hsel : selectedImage rC3 ["a.jpg".toList, "b.jpg".toList] =
      some "a.jpg".toList := by decide
  have hmain : (processFolder .random ["b.jpg".toList, "a.jpg".toList] ctxW
      cfgC3 100 100 [picPhShape] folderC3).1 =
      [insertPicture picPhShape "a.jpg".toList] := by
    show apply_configured_placeholders { ctxW with folder_name := folderC3.name }
      cfgC3 folderC3.files 100 100 [picPhShape] = _
    have happly : applyImages 100 100 ["a.jpg".toList, "b.jpg".toList]
        cfgC3.images [picPhShape] =
        [insertPicture picPhShape "a.jpg".toList] := by
      show applyImages 100 100 _ [rC3] [picPhShape] = _
      simp only [applyImages, hsel]
      rw [show rC3.placeholder_info = dC3 from rfl, applyImageRule_picPhShape]
    unfold apply_configured_placeholders
    simp only [himgs, happly]
    rfl
  refine ⟨fun opt opt' sh sh' ctx cfg w h layout f => rfl, hmain, ?_, himgs⟩
  rw [hmain]
  intro hcontra
  have := congrArg (fun l => (l.headD defaultShape).picture) hcontra
  simp [insertPicture] at this

/-- C3 witness: the populated slide under the shuffle option with a
concrete shuffle equals the populated slide under alphabetical
ordering. -/
theorem C3_shuffle_never_reaches_populator_witness :
    (processFolder .random ["b.jpg".toList, "a.jpg".toList] ctxW cfgC3
        100 100 [picPhShape] folderC3).1 =
      (processFolder .alphabetical [] ctxW cfgC3 100 100 [picPhShape]
        folderC3).1 :=
  C3_shuffle_never_reaches_populator.1 .random .alphabetical
    ["b.jpg".toList, "a.jpg".toList] [] ctxW cfgC3 100 100 [picPhShape]
    folderC3
